import Mathlib

/-!
# Verification of the PL-600 quiz application core

Shallow embedding of the quiz session state machine and scoring engine of
the pl600-quiz-app repository (files `src/css/js/utils.js` and the main
`QuizApp` class), together with proofs of the specified properties.

JavaScript numbers are modelled as `ℚ` (all arithmetic here is exact on the
inputs of interest), `Math.round` as Mathlib's `round` (both are
`⌊x + 1/2⌋`), JS objects keyed by strings as association lists, timestamps
(`new Date()`) as an abstract `ℕ` parameter, and `Math.random`-derived
indices as an explicit random-source parameter `rand : ℕ → ℕ` (the source
computes `Math.floor(Math.random() * (i + 1))`, an arbitrary value in
`[0, i]`, which we model as `rand i % (i + 1)`).
-/

namespace PL600

/-- An answer option of a question: `{letter, text}`. -/
structure QOption where
  letter : String
  text : String
deriving DecidableEq, Repr

/-- A question record, as supplied to the app (fields used by the core). -/
structure Question where
  id : String
  text : String
  category : String
  options : List QOption
  correctAnswers : List String
  isMultipleChoice : Bool
deriving DecidableEq, Repr

/-- Per-question attempt history (`QuizApp.updateQuestionHistory`'s record).
`lastAttempt`/`firstSeen` hold abstract timestamps. -/
structure QuestionHistory where
  attempts : ℕ
  correct : ℕ
  incorrect : ℕ
  lastAttempt : Option ℕ
  firstSeen : ℕ
  mastered : Bool
  retentionScore : ℤ
deriving DecidableEq, Repr

/-- Result of `getQuestionMasteryStatus`: `{status, label, color}`. -/
structure MasteryStatus where
  status : String
  label : String
  color : String
deriving DecidableEq, Repr

/-- A stored user answer: `userAnswers[qId]` holds a plain letter string for
single-choice questions and an array of letters for multiple-choice ones. -/
inductive UserAnswer where
  | single (letter : String)
  | multi (letters : List String)
deriving DecidableEq, Repr

/-! ## Utils (`src/css/js/utils.js`) -/

/-- `Utils.arraysEqual`: equal length and equal elements at every position. -/
def arraysEqual : List String → List String → Bool
  | [], [] => true
  | a :: as, b :: bs => a == b && arraysEqual as bs
  | _, _ => false

/-- `passingThreshold = 0.65` from `Utils.calculateScaledScore`. -/
def passingThreshold : ℚ := 65 / 100

/-- `Utils.calculateScaledScore`: Microsoft-style scaled score. -/
def calculateScaledScore (rawPercentage : ℚ) : ℤ :=
  if rawPercentage = 0 then 0
  else if rawPercentage = 100 then 1000
  else if rawPercentage / 100 < passingThreshold then
    round (rawPercentage / 100 / passingThreshold * 699)
  else
    round (700 + (rawPercentage / 100 - passingThreshold) / (1 - passingThreshold) * 300)

/-- One Fisher-Yates swap `[arr[i], arr[j]] = [arr[j], arr[i]]`, as a pure
list operation (out-of-range indices leave the list unchanged; the loop in
`Utils.shuffle` only produces in-range indices). -/
def listSwap (l : List α) (i j : ℕ) : List α :=
  match l.get? i, l.get? j with
  | some a, some b => (l.set i b).set j a
  | _, _ => l

/-- The loop of `Utils.shuffle`: `for (let i = arr.length - 1; i > 0; i--)`
with `j = Math.floor(Math.random() * (i + 1))`, modelled as `rand i % (i+1)`. -/
def shuffleLoop (rand : ℕ → ℕ) : ℕ → List α → List α
  | 0, arr => arr
  | i + 1, arr => shuffleLoop rand i (listSwap arr (i + 1) (rand (i + 1) % (i + 2)))

/-- `Utils.shuffle`: copies the input (`[...array]`) and runs Fisher-Yates on
the copy, so the input sequence itself is never mutated. -/
def shuffle (rand : ℕ → ℕ) (arr : List α) : List α :=
  shuffleLoop rand (arr.length - 1) arr

/-- Lexicographic code-unit comparison of character lists, as JS string
comparison (`<`/`>` on strings) performs it.  (For the single-letter ASCII
option identifiers compared here, Unicode scalar values coincide with UTF-16
code units.) -/
def charListLe : List Char → List Char → Bool
  | [], _ => true
  | _ :: _, [] => false
  | a :: as, b :: bs => if a = b then charListLe as bs else decide (a < b)

/-- JS string comparison `a <= b`. -/
def strLe (a b : String) : Bool := charListLe a.data b.data

/-- JavaScript `Array.prototype.sort()` on arrays of (single-letter) strings:
sorts lexicographically by code units. -/
def sortJS (l : List String) : List String :=
  l.insertionSort (fun a b => strLe a b = true)

/-! ## String-keyed object maps

JS objects used as dictionaries (`questionHistory`, `userAnswers`) are
modelled as association lists: property read is `lookupAssoc`, property
assignment is `setAssoc` (overwrite in place if present, append if new). -/

def lookupAssoc (m : List (String × α)) (k : String) : Option α :=
  (m.find? (fun p => p.1 == k)).map Prod.snd

def setAssoc (m : List (String × α)) (k : String) (v : α) : List (String × α) :=
  if m.any (fun p => p.1 == k) then
    m.map (fun p => if p.1 == k then (k, v) else p)
  else
    m ++ [(k, v)]

/-! ## Mastery tracker (`QuizApp.updateQuestionHistory`,
`QuizApp.getQuestionMasteryStatus`) -/

/-- `QuizApp.updateQuestionHistory`, acting on the (possibly absent) history
record of one question id; `now` is the current timestamp. -/
def updateQuestionHistory (hist : Option QuestionHistory) (now : ℕ) (isCorrect : Bool) :
    QuestionHistory :=
  let h := hist.getD
    { attempts := 0, correct := 0, incorrect := 0, lastAttempt := none,
      firstSeen := now, mastered := false, retentionScore := 100 }
  let h := { h with attempts := h.attempts + 1, lastAttempt := some now }
  if isCorrect then
    { h with
      correct := h.correct + 1,
      mastered := if 3 ≤ h.correct + 1 ∧ h.incorrect = 0 then true else h.mastered,
      retentionScore := min 100 (h.retentionScore + 10) }
  else
    { h with
      incorrect := h.incorrect + 1,
      mastered := false,
      retentionScore := max 0 (h.retentionScore - 20) }

/-- `QuizApp.updateQuestionHistory` at the level of the history map. -/
def updateHistoryMap (m : List (String × QuestionHistory)) (questionId : String)
    (now : ℕ) (isCorrect : Bool) : List (String × QuestionHistory) :=
  setAssoc m questionId (updateQuestionHistory (lookupAssoc m questionId) now isCorrect)

/-- `QuizApp.getQuestionMasteryStatus`, acting on the (possibly absent)
history record of one question id. -/
def getQuestionMasteryStatus (hist : Option QuestionHistory) : MasteryStatus :=
  match hist with
  | none => { status := "unseen", label := "New", color := "#5f6368" }
  | some history =>
    if history.mastered = true ∧ 70 ≤ history.retentionScore then
      { status := "mastered", label := "Mastered", color := "#34a853" }
    else if history.correct < history.incorrect ∨ history.retentionScore < 50 then
      { status := "weak", label := "Needs Practice", color := "#ea4335" }
    else
      { status := "learning", label := "Learning", color := "#fbbc04" }

/-- A finite sequence of `recordAttempt` calls for one question id, starting
from no history: each call carries its timestamp and correctness flag. -/
def runAttempts (calls : List (ℕ × Bool)) : Option QuestionHistory :=
  calls.foldl (fun acc c => some (updateQuestionHistory acc c.1 c.2)) none

/-! ## Question selector (`QuizApp.selectTestQuestions`) -/

/-- First official category (weight range 45-50%). -/
def catEnvisioning : String := "Perform solution envisioning and requirement analysis"

/-- Second official category (weight range 35-40%). -/
def catArchitecture : String := "Architect a solution"

/-- Third official category (weight range 15-20%). -/
def catImplementation : String := "Implement the solution"

/-- Per-category target count: `Math.round(targetTotal * (min + max) / 2)`. -/
def categoryTarget (targetTotal : ℕ) (lo hi : ℚ) : ℕ :=
  (round ((targetTotal : ℚ) * ((lo + hi) / 2))).toNat

/-- The per-category pass of `selectTestQuestions` for one category: group
the pool by category, shuffle the group, take
`Math.min(targetCount, shuffled.length)` questions. The `k`-th shuffle call
uses the random source `rs k`. -/
def selectForCategory (rs : ℕ → ℕ → ℕ) (k : ℕ) (pool : List Question)
    (targetTotal : ℕ) (cat : String) (lo hi : ℚ) : List Question :=
  let qs := pool.filter (fun q => q.category == cat)
  let shuffled := shuffle (rs k) qs
  shuffled.take (min (categoryTarget targetTotal lo hi) shuffled.length)

/-- `QuizApp.selectTestQuestions`: weighted per-category selection (the
`categoryDistribution` object holds the three official categories with
weight ranges 45-50%, 35-40% and 15-20%, iterated in insertion order),
shortfall fill from unused questions, final shuffle and truncation to
`targetTotal`. -/
def selectTestQuestions (rs : ℕ → ℕ → ℕ) (availableQuestions : List Question)
    (targetTotal : ℕ) : List Question :=
  let sel1 := selectForCategory rs 0 availableQuestions targetTotal
    catEnvisioning (45 / 100) (50 / 100)
  let sel2 := selectForCategory rs 1 availableQuestions targetTotal
    catArchitecture (35 / 100) (40 / 100)
  let sel3 := selectForCategory rs 2 availableQuestions targetTotal
    catImplementation (15 / 100) (20 / 100)
  let selectedQuestions := sel1 ++ sel2 ++ sel3
  let selectedQuestions :=
    if selectedQuestions.length < targetTotal then
      let remaining := targetTotal - selectedQuestions.length
      let unused := availableQuestions.filter (fun q => ¬ selectedQuestions.contains q)
      selectedQuestions ++ (shuffle (rs 3) unused).take remaining
    else selectedQuestions
  (shuffle (rs 4) selectedQuestions).take targetTotal

/-! ## Quiz session state (`QuizApp` fields touched by the core) -/

/-- The mutable fields of the `QuizApp` instance that the session state
machine reads and writes.  `questionCount = none` models the `'all'`
sentinel. -/
structure QuizState where
  allQuestions : List Question
  questions : List Question
  currentIndex : ℕ
  userAnswers : List (String × UserAnswer)
  score : ℕ
  quizMode : String
  showAnswer : Bool
  showHints : Bool
  quizStarted : Bool
  selectedCategories : List String
  questionCount : Option ℕ
  questionHistory : List (String × QuestionHistory)
  quizResults : List Bool
  testStartTime : Option ℕ
deriving DecidableEq, Repr

/-- The stored answer of a multiple-choice question as a letter array:
`(userAnswer || [])` — an absent answer is the empty array.  (A plain-string
answer cannot occur for a multiple-choice question: `selectAnswer` always
stores arrays for them.) -/
def multiAnswerList : Option UserAnswer → List String
  | some (UserAnswer.multi letters) => letters
  | _ => []

/-- JS strict equality `userAnswer === question.correctAnswers[0]` for the
single-choice branch of `checkAnswer`: `undefined === undefined` is true, a
string equals a string with the same characters, everything else is false. -/
def evalSingleChoice : Option UserAnswer → Option String → Bool
  | some (UserAnswer.single s), some c => s == c
  | none, none => true
  | _, _ => false

/-- The correctness computation of `QuizApp.checkAnswer` (`isCorrect`). -/
def evalAnswer (question : Question) (userAnswer : Option UserAnswer) : Bool :=
  if question.isMultipleChoice then
    arraysEqual (sortJS (multiAnswerList userAnswer)) (sortJS question.correctAnswers)
  else
    evalSingleChoice userAnswer question.correctAnswers.head?

/-- `QuizApp.checkAnswer`.  Reading `this.questions[this.currentIndex]` out
of bounds throws in JS, modelled as `none`.  `Array.prototype.sort()`
mutates in place, so in the multiple-choice branch the current question's
`correctAnswers` and the stored answer array end up sorted in the new
state. -/
def checkAnswer (now : ℕ) (st : QuizState) : Option QuizState :=
  (st.questions.get? st.currentIndex).map fun question =>
    let userAnswer := lookupAssoc st.userAnswers question.id
    let isCorrect := evalAnswer question userAnswer
    let question' :=
      if question.isMultipleChoice then
        { question with correctAnswers := sortJS question.correctAnswers }
      else question
    let userAnswers' :=
      if question.isMultipleChoice then
        match userAnswer with
        | some (UserAnswer.multi letters) =>
          setAssoc st.userAnswers question.id (UserAnswer.multi (sortJS letters))
        | _ => st.userAnswers
      else st.userAnswers
    { st with
      questions := st.questions.set st.currentIndex question',
      userAnswers := userAnswers',
      questionHistory := updateHistoryMap st.questionHistory question.id now isCorrect,
      quizResults := st.quizResults ++ [isCorrect],
      score := if isCorrect then st.score + 1 else st.score,
      showAnswer := true }

/-- The category filter at the top of `QuizApp.startQuiz`:
`[...this.allQuestions]`, filtered by `selectedCategories` when that set is
non-empty. -/
def categoryFilteredPool (st : QuizState) : List Question :=
  if st.selectedCategories.length ≠ 0 then
    st.allQuestions.filter (fun q => st.selectedCategories.contains q.category)
  else st.allQuestions

/-- `QuizApp.startQuiz`.  `randCount` models the `Math.random()` draw for the
test-mode question count (`Math.floor(Math.random() * 21) + 40`), `rs` the
random sources of the shuffle calls, `now` the start timestamp.  The `Bool`
result records whether the `'No questions available with selected filters'`
alert fired (in which case the method returns early and the state is
untouched). -/
def startQuiz (randCount : ℕ) (rs : ℕ → ℕ → ℕ) (now : ℕ) (st : QuizState) :
    QuizState × Bool :=
  let filteredQuestions := categoryFilteredPool st
  if filteredQuestions.length = 0 then
    (st, true)
  else
    let filteredQuestions :=
      if st.quizMode = "test" then
        selectTestQuestions rs filteredQuestions (randCount % 21 + 40)
      else
        let shuffled := shuffle (rs 0) filteredQuestions
        match st.questionCount with
        | none => shuffled
        | some n => shuffled.take n
    ({ st with
        questions := filteredQuestions,
        quizStarted := true,
        currentIndex := 0,
        score := 0,
        userAnswers := [],
        quizResults := [],
        showAnswer := false,
        showHints := false,
        testStartTime := some now }, false)

/-! ## Invariants and concrete fixtures used by the theorems below -/

/-- Invariant of a reachable `QuestionHistory` record: the retention score
stays in `[0, 100]` and `mastered` implies at least 3 correct answers with
no incorrect ones. -/
def HistInv (h : QuestionHistory) : Prop :=
  0 ≤ h.retentionScore ∧ h.retentionScore ≤ 100 ∧
    (h.mastered = true → 3 ≤ h.correct ∧ h.incorrect = 0)

/-- The history produced by one correct attempt at time 0. -/
def histW : QuestionHistory :=
  { attempts := 1, correct := 1, incorrect := 0, lastAttempt := some 0,
    firstSeen := 0, mastered := false, retentionScore := 100 }

/-- The history produced by three correct attempts at times 0, 1, 2. -/
def histM : QuestionHistory :=
  { attempts := 3, correct := 3, incorrect := 0, lastAttempt := some 2,
    firstSeen := 0, mastered := true, retentionScore := 100 }

/-- A state with an empty question bank and no category filter. -/
def stEmpty : QuizState :=
  { allQuestions := [], questions := [], currentIndex := 0, userAnswers := [],
    score := 0, quizMode := "practice", showAnswer := false, showHints := false,
    quizStarted := false, selectedCategories := [], questionCount := some 10,
    questionHistory := [], quizResults := [], testStartTime := none }

/-- A multiple-choice question whose correct answers are `{A, C}`. -/
def qC7 : Question :=
  { id := "q1", text := "t1", category := "Architect a solution",
    options := [⟨"A", "o1"⟩, ⟨"B", "o2"⟩, ⟨"C", "o3"⟩],
    correctAnswers := ["A", "C"], isMultipleChoice := true }

/-- A running session on `qC7` with stored answer `{C, A}` (reversed order). -/
def stC7 : QuizState :=
  { allQuestions := [qC7], questions := [qC7], currentIndex := 0,
    userAnswers := [("q1", UserAnswer.multi ["C", "A"])], score := 0,
    quizMode := "practice", showAnswer := false, showHints := false,
    quizStarted := true, selectedCategories := [], questionCount := some 10,
    questionHistory := [], quizResults := [], testStartTime := some 0 }

/-- A multiple-choice question whose `correctAnswers` array is stored in the
order `["C", "A"]`. -/
def qC9 : Question :=
  { id := "q1", text := "t1", category := "Architect a solution",
    options := [⟨"A", "o1"⟩, ⟨"B", "o2"⟩, ⟨"C", "o3"⟩],
    correctAnswers := ["C", "A"], isMultipleChoice := true }

/-- A running session on `qC9` with no stored answer. -/
def stC9 : QuizState :=
  { allQuestions := [qC9], questions := [qC9], currentIndex := 0,
    userAnswers := [], score := 0,
    quizMode := "practice", showAnswer := false, showHints := false,
    quizStarted := true, selectedCategories := [], questionCount := some 10,
    questionHistory := [], quizResults := [], testStartTime := some 0 }

/-- A single-choice question with correct answer `A`. -/
def qC10 : Question :=
  { id := "q1", text := "t1", category := "Architect a solution",
    options := [⟨"A", "o1"⟩, ⟨"B", "o2"⟩],
    correctAnswers := ["A"], isMultipleChoice := false }

/-- A running session on `qC10` with no stored answer. -/
def stC10 : QuizState :=
  { allQuestions := [qC10], questions := [qC10], currentIndex := 0,
    userAnswers := [], score := 0,
    quizMode := "practice", showAnswer := false, showHints := false,
    quizStarted := true, selectedCategories := [], questionCount := some 10,
    questionHistory := [], quizResults := [], testStartTime := some 0 }

/-- A question in the envisioning category. -/
def qE : Question :=
  { id := "e1", text := "te", category := catEnvisioning, options := [],
    correctAnswers := ["A"], isMultipleChoice := false }

/-- A question in the architecture category. -/
def qA : Question :=
  { id := "a1", text := "ta", category := catArchitecture, options := [],
    correctAnswers := ["A"], isMultipleChoice := false }

/-- A question in the implementation category. -/
def qI : Question :=
  { id := "i1", text := "ti", category := catImplementation, options := [],
    correctAnswers := ["A"], isMultipleChoice := false }

/-- A pool containing one question in each official category. -/
def poolC2 : List Question := [qE, qA, qI]

/-- A pool with 24, 19 and 9 questions in the three official categories. -/
def pool52 : List Question :=
  List.replicate 24 qE ++ List.replicate 19 qA ++ List.replicate 9 qI

/-! ## Permutation facts about `shuffle` -/

theorem perm_cons_set : ∀ (xs : List α) (k : ℕ) (hk : k < xs.length) (x : α),
    (x :: xs).Perm (xs.get ⟨k, hk⟩ :: xs.set k x)
  | y :: ys, 0, _, x => List.Perm.swap y x ys
  | y :: ys, k + 1, hk, x => by
    have hk' : k < ys.length := by simpa using hk
    show (x :: y :: ys).Perm (ys.get ⟨k, hk'⟩ :: y :: ys.set k x)
    have h1 : (x :: y :: ys).Perm (y :: x :: ys) := List.Perm.swap y x ys
    have h2 : (y :: x :: ys).Perm (y :: ys.get ⟨k, hk'⟩ :: ys.set k x) :=
      (perm_cons_set ys k hk' x).cons y
    have h3 : (y :: ys.get ⟨k, hk'⟩ :: ys.set k x).Perm
        (ys.get ⟨k, hk'⟩ :: y :: ys.set k x) :=
      List.Perm.swap (ys.get ⟨k, hk'⟩) y (ys.set k x)
    exact (h1.trans h2).trans h3

theorem set_set_perm : ∀ (l : List α) (i j : ℕ) (a b : α),
    l.get? i = some a → l.get? j = some b → ((l.set i b).set j a).Perm l := by
  intro l
  induction l with
  | nil => intro i j a b ha _; simp at ha
  | cons x xs ih =>
    intro i j a b ha hb
    cases i with
    | zero =>
      obtain rfl : x = a := by simpa using ha
      cases j with
      | zero =>
        obtain rfl : x = b := by simpa using hb
        show (x :: xs).Perm (x :: xs)
        exact List.Perm.refl _
      | succ m =>
        have hb' : xs.get? m = some b := hb
        obtain ⟨hm, hbm⟩ := List.get?_eq_some.mp hb'
        show (b :: xs.set m x).Perm (x :: xs)
        exact (hbm ▸ perm_cons_set xs m hm x).symm
    | succ n =>
      have ha' : xs.get? n = some a := ha
      cases j with
      | zero =>
        obtain rfl : x = b := by simpa using hb
        obtain ⟨hn, han⟩ := List.get?_eq_some.mp ha'
        show (a :: xs.set n x).Perm (x :: xs)
        exact (han ▸ perm_cons_set xs n hn x).symm
      | succ m =>
        have hb' : xs.get? m = some b := hb
        show (x :: (xs.set n b).set m a).Perm (x :: xs)
        exact (ih n m a b ha' hb').cons x

theorem listSwap_perm (l : List α) (i j : ℕ) : (listSwap l i j).Perm l := by
  unfold listSwap
  cases hi : l.get? i with
  | none => exact List.Perm.refl l
  | some a =>
    cases hj : l.get? j with
    | none => exact List.Perm.refl l
    | some b => exact set_set_perm l i j a b hi hj

theorem shuffleLoop_perm (rand : ℕ → ℕ) :
    ∀ (i : ℕ) (arr : List α), (shuffleLoop rand i arr).Perm arr
  | 0, _ => List.Perm.refl _
  | i + 1, arr =>
    (shuffleLoop_perm rand i _).trans (listSwap_perm arr (i + 1) _)

theorem shuffle_perm (rand : ℕ → ℕ) (arr : List α) : (shuffle rand arr).Perm arr :=
  shuffleLoop_perm rand (arr.length - 1) arr

theorem shuffle_length (rand : ℕ → ℕ) (arr : List α) :
    (shuffle rand arr).length = arr.length :=
  (shuffle_perm rand arr).length_eq

/-- C8: for every random source and every input sequence (including empty
and single-element sequences), `shuffle` returns a permutation of the input:
the same multiset of elements and the same length.  The source copies the
input (`[...array]`) before running the Fisher-Yates loop, so the input
sequence itself is not mutated; in this pure embedding `shuffle` is a
function of the input value and the original list is untouched. -/
theorem shuffle_is_permutation (rand : ℕ → ℕ) (arr : List α) :
    (shuffle rand arr).Perm arr ∧
    ((shuffle rand arr : Multiset α) = (arr : Multiset α)) ∧
    (shuffle rand arr).length = arr.length :=
  ⟨shuffle_perm rand arr, Multiset.coe_eq_coe.mpr (shuffle_perm rand arr),
    shuffle_length rand arr⟩

/-! ## Mastery tracker invariants -/
theorem updateQuestionHistory_inv (hist : Option QuestionHistory) (now : ℕ) (b : Bool)
    (H : ∀ h, hist = some h → HistInv h) :
    HistInv (updateQuestionHistory hist now b) := by
  cases hist with
  | none =>
    cases b <;> simp [updateQuestionHistory, HistInv]
  | some h =>
    obtain ⟨h0, h100, hm⟩ := H h rfl
    cases b with
    | false =>
      refine ⟨?_, ?_, ?_⟩
      · show (0 : ℤ) ≤ max 0 (h.retentionScore - 20)
        omega
      · show max 0 (h.retentionScore - 20) ≤ 100
        omega
      · intro hmast
        have hmast' : false = true := hmast
        exact Bool.noConfusion hmast'
    | true =>
      refine ⟨?_, ?_, ?_⟩
      · show (0 : ℤ) ≤ min 100 (h.retentionScore + 10)
        omega
      · show min 100 (h.retentionScore + 10) ≤ 100
        omega
      · intro hmast
        have hmast' : (if 3 ≤ h.correct + 1 ∧ h.incorrect = 0 then true
            else h.mastered) = true := hmast
        show 3 ≤ h.correct + 1 ∧ h.incorrect = 0
        split_ifs at hmast' with hcond
        · exact hcond
        · obtain ⟨hc, hi⟩ := hm hmast'
          exact ⟨Nat.le_succ_of_le hc, hi⟩

theorem runAttempts_inv_aux :
    ∀ (calls : List (ℕ × Bool)) (acc : Option QuestionHistory),
      (∀ h, acc = some h → HistInv h) →
      ∀ h, calls.foldl (fun a c => some (updateQuestionHistory a c.1 c.2)) acc = some h →
        HistInv h := by
  intro calls
  induction calls with
  | nil =>
    intro acc hacc h hfold
    exact hacc h hfold
  | cons c cs ih =>
    intro acc hacc h hfold
    refine ih (some (updateQuestionHistory acc c.1 c.2)) ?_ h hfold
    intro h' hh'
    obtain rfl : updateQuestionHistory acc c.1 c.2 = h' := by simpa using hh'
    exact updateQuestionHistory_inv acc c.1 c.2 hacc

theorem runAttempts_inv (calls : List (ℕ × Bool)) (h : QuestionHistory)
    (hrun : runAttempts calls = some h) : HistInv h :=
  runAttempts_inv_aux calls none (by intro h' hh'; cases hh') h hrun

/-- C5: starting from no history, after every finite sequence of
`recordAttempt` (`updateQuestionHistory`) calls the resulting history's
`retentionScore` lies in `[0, 100]`.  (The statement quantifies over all
call sequences, so it covers the state after every call of any longer
sequence.) -/
theorem retentionScore_in_range (calls : List (ℕ × Bool)) (h : QuestionHistory)
    (hrun : runAttempts calls = some h) :
    0 ≤ h.retentionScore ∧ h.retentionScore ≤ 100 :=
  ⟨(runAttempts_inv calls h hrun).1, (runAttempts_inv calls h hrun).2.1⟩

theorem retentionScore_in_range_witness :
    runAttempts [(0, true)] = some histW ∧
      (0 ≤ histW.retentionScore ∧ histW.retentionScore ≤ 100) :=
  ⟨by decide, retentionScore_in_range [(0, true)] histW (by decide)⟩

/-- C6: starting from no history, after every finite sequence of
`recordAttempt` (`updateQuestionHistory`) calls, whenever the
classification (`getQuestionMasteryStatus`) is `mastered`, the history
satisfies `correct ≥ 3`, `incorrect = 0`, and `retentionScore ≥ 70`. -/
theorem mastered_classification_sound (calls : List (ℕ × Bool)) (h : QuestionHistory)
    (hrun : runAttempts calls = some h)
    (hm : (getQuestionMasteryStatus (some h)).status = "mastered") :
    3 ≤ h.correct ∧ h.incorrect = 0 ∧ 70 ≤ h.retentionScore := by
  obtain ⟨-, -, hinv⟩ := runAttempts_inv calls h hrun
  simp only [getQuestionMasteryStatus] at hm
  split at hm
  · rename_i hcond
    obtain ⟨hc, hi⟩ := hinv hcond.1
    exact ⟨hc, hi, hcond.2⟩
  · split at hm <;> simp at hm

theorem mastered_classification_sound_witness :
    runAttempts [(0, true), (1, true), (2, true)] = some histM ∧
      (getQuestionMasteryStatus (some histM)).status = "mastered" ∧
      (3 ≤ histM.correct ∧ histM.incorrect = 0 ∧ 70 ≤ histM.retentionScore) :=
  ⟨by decide, by decide,
    mastered_classification_sound [(0, true), (1, true), (2, true)] histM
      (by decide) (by decide)⟩

/-- C4: starting from no history, three consecutive correct
`recordAttempt` calls make the classification `mastered`; one subsequent
incorrect call sets `mastered = false` and moves the classification off
`mastered`, even though the retention score is still at least 70. -/
theorem three_correct_then_incorrect (t1 t2 t3 t4 : ℕ) :
    (getQuestionMasteryStatus (some (updateQuestionHistory
      (some (updateQuestionHistory
        (some (updateQuestionHistory none t1 true)) t2 true)) t3 true))).status
        = "mastered" ∧
    (updateQuestionHistory (some (updateQuestionHistory
      (some (updateQuestionHistory
        (some (updateQuestionHistory none t1 true)) t2 true)) t3 true)) t4 false).mastered
        = false ∧
    (getQuestionMasteryStatus (some (updateQuestionHistory
      (some (updateQuestionHistory
        (some (updateQuestionHistory
          (some (updateQuestionHistory none t1 true)) t2 true)) t3 true)) t4 false))).status
        ≠ "mastered" ∧
    70 ≤ (updateQuestionHistory (some (updateQuestionHistory
      (some (updateQuestionHistory
        (some (updateQuestionHistory none t1 true)) t2 true)) t3 true)) t4 false).retentionScore := by
  refine ⟨?_, ?_, ?_, ?_⟩ <;>
    simp [updateQuestionHistory, getQuestionMasteryStatus]

/-! ## C3: starting with an empty filtered pool -/

/-- C3: whenever the category-filtered pool is empty, `startQuiz` fires the
`'No questions available with selected filters'` alert and returns without
creating a session: the whole state, and in particular `questions`,
`currentIndex`, `userAnswers`, `score`, `quizResults`, `quizStarted` and
`testStartTime`, is left unchanged. -/
theorem startQuiz_empty_pool (randCount : ℕ) (rs : ℕ → ℕ → ℕ) (now : ℕ)
    (st : QuizState) (h : categoryFilteredPool st = []) :
    startQuiz randCount rs now st = (st, true) ∧
    (startQuiz randCount rs now st).1.questions = st.questions ∧
    (startQuiz randCount rs now st).1.currentIndex = st.currentIndex ∧
    (startQuiz randCount rs now st).1.userAnswers = st.userAnswers ∧
    (startQuiz randCount rs now st).1.score = st.score ∧
    (startQuiz randCount rs now st).1.quizResults = st.quizResults ∧
    (startQuiz randCount rs now st).1.quizStarted = st.quizStarted ∧
    (startQuiz randCount rs now st).1.testStartTime = st.testStartTime := by
  have hrun : startQuiz randCount rs now st = (st, true) := by
    simp [startQuiz, h]
  refine ⟨hrun, ?_, ?_, ?_, ?_, ?_, ?_, ?_⟩ <;> rw [hrun]

theorem startQuiz_empty_pool_witness :
    categoryFilteredPool stEmpty = [] ∧
      startQuiz 0 (fun _ _ => 0) 0 stEmpty = (stEmpty, true) :=
  ⟨by decide, (startQuiz_empty_pool 0 (fun _ _ => 0) 0 stEmpty (by decide)).1⟩

/-! ## The JS sort order on strings is a total, transitive, antisymmetric
relation, hence `sortJS` is a sorting function -/

theorem charListLe_total : ∀ a b : List Char, charListLe a b = true ∨ charListLe b a = true := by
  intro a
  induction a with
  | nil => intro b; left; rfl
  | cons x xs ih =>
    intro b
    cases b with
    | nil => right; rfl
    | cons y ys =>
      by_cases hxy : x = y
      · subst hxy
        simp only [charListLe, if_pos rfl]
        exact ih ys
      · rcases lt_or_gt_of_ne hxy with h | h
        · left
          simp [charListLe, hxy, h]
        · right
          simp [charListLe, Ne.symm hxy, h]

theorem charListLe_trans : ∀ a b c : List Char, charListLe a b = true →
    charListLe b c = true → charListLe a c = true := by
  intro a
  induction a with
  | nil => intro b c _ _; rfl
  | cons x xs ih =>
    intro b c h1 h2
    cases b with
    | nil => simp [charListLe] at h1
    | cons y ys =>
      cases c with
      | nil => simp [charListLe] at h2
      | cons z zs =>
        by_cases hxy : x = y
        · subst hxy
          simp only [charListLe, if_pos rfl] at h1
          by_cases hyz : x = z
          · subst hyz
            simp only [charListLe, if_pos rfl] at h2 ⊢
            exact ih ys zs h1 h2
          · simp only [charListLe, if_neg hyz] at h2 ⊢
            exact h2
        · simp only [charListLe, if_neg hxy] at h1
          have hltxy : x < y := of_decide_eq_true h1
          by_cases hyz : y = z
          · subst hyz
            simp only [charListLe, if_neg hxy]
            exact decide_eq_true hltxy
          · simp only [charListLe, if_neg hyz] at h2
            have hltyz : y < z := of_decide_eq_true h2
            have hxz : x < z := lt_trans hltxy hltyz
            simp only [charListLe, if_neg (ne_of_lt hxz)]
            exact decide_eq_true hxz

theorem charListLe_antisymm : ∀ a b : List Char, charListLe a b = true →
    charListLe b a = true → a = b := by
  intro a
  induction a with
  | nil =>
    intro b _ h2
    cases b with
    | nil => rfl
    | cons y ys => simp [charListLe] at h2
  | cons x xs ih =>
    intro b h1 h2
    cases b with
    | nil => simp [charListLe] at h1
    | cons y ys =>
      by_cases hxy : x = y
      · subst hxy
        simp only [charListLe, if_pos rfl] at h1 h2
        rw [ih ys h1 h2]
      · simp only [charListLe, if_neg hxy] at h1
        simp only [charListLe, if_neg (Ne.symm hxy)] at h2
        exact absurd (of_decide_eq_true h1) (lt_asymm (of_decide_eq_true h2))

instance : IsTotal String (fun a b => strLe a b = true) :=
  ⟨fun a b => charListLe_total a.data b.data⟩

instance : IsTrans String (fun a b => strLe a b = true) :=
  ⟨fun a b c => charListLe_trans a.data b.data c.data⟩

instance : IsAntisymm String (fun a b => strLe a b = true) :=
  ⟨fun a b h1 h2 => by
    have h := charListLe_antisymm a.data b.data h1 h2
    cases a
    cases b
    exact congrArg String.mk h⟩

theorem sortJS_perm (l : List String) : (sortJS l).Perm l :=
  List.perm_insertionSort _ l

theorem sortJS_sorted (l : List String) :
    List.Sorted (fun a b => strLe a b = true) (sortJS l) :=
  List.sorted_insertionSort _ l

theorem sortJS_eq_iff_perm (a b : List String) : sortJS a = sortJS b ↔ a.Perm b := by
  constructor
  · intro h
    have hb := sortJS_perm b
    rw [← h] at hb
    exact (sortJS_perm a).symm.trans hb
  · intro h
    exact List.eq_of_perm_of_sorted
      ((sortJS_perm a).trans (h.trans (sortJS_perm b).symm))
      (sortJS_sorted a) (sortJS_sorted b)

theorem arraysEqual_iff : ∀ a b : List String, arraysEqual a b = true ↔ a = b := by
  intro a
  induction a with
  | nil => intro b; cases b <;> simp [arraysEqual]
  | cons x xs ih =>
    intro b
    cases b with
    | nil => simp [arraysEqual]
    | cons y ys => simp [arraysEqual, ih ys]

/-! ## `checkAnswer` -/

/-- Characterization of a successful `checkAnswer` step: the new state
exists and its `quizResults`, `score` and `questions` fields are as the
source computes them. -/
theorem checkAnswer_spec (now : ℕ) (st : QuizState) (q : Question)
    (hq : st.questions.get? st.currentIndex = some q) :
    ∃ st', checkAnswer now st = some st' ∧
      st'.quizResults = st.quizResults ++ [evalAnswer q (lookupAssoc st.userAnswers q.id)] ∧
      st'.score = (if evalAnswer q (lookupAssoc st.userAnswers q.id) then st.score + 1
        else st.score) ∧
      st'.questions = st.questions.set st.currentIndex
        (if q.isMultipleChoice then { q with correctAnswers := sortJS q.correctAnswers }
          else q) := by
  unfold checkAnswer
  rw [hq]
  exact ⟨_, rfl, rfl, rfl, rfl⟩

/-- C7: for every session whose current question is multiple-choice with a
stored answer set, `checkAnswer` evaluates correctness order-insensitively:
the appended result is `true` exactly when the stored answer set and
`correctAnswers` contain the same letters (exact set equality, no partial
credit). -/
theorem checkAnswer_multi_order_insensitive (now : ℕ) (st : QuizState) (q : Question)
    (ans : List String)
    (hq : st.questions.get? st.currentIndex = some q)
    (hmc : q.isMultipleChoice = true)
    (hua : lookupAssoc st.userAnswers q.id = some (UserAnswer.multi ans))
    (hnd1 : ans.Nodup) (hnd2 : q.correctAnswers.Nodup) :
    ∃ st', checkAnswer now st = some st' ∧
      (st'.quizResults = st.quizResults ++ [true] ↔
        ∀ x, x ∈ ans ↔ x ∈ q.correctAnswers) := by
  obtain ⟨st', h1, h2, -, -⟩ := checkAnswer_spec now st q hq
  rw [hua] at h2
  refine ⟨st', h1, ?_⟩
  rw [h2]
  have heval : evalAnswer q (some (UserAnswer.multi ans)) =
      arraysEqual (sortJS ans) (sortJS q.correctAnswers) := by
    simp [evalAnswer, hmc, multiAnswerList]
  have hchain : evalAnswer q (some (UserAnswer.multi ans)) = true ↔
      ∀ x, x ∈ ans ↔ x ∈ q.correctAnswers := by
    rw [heval, arraysEqual_iff, sortJS_eq_iff_perm]
    exact List.perm_ext_iff_of_nodup hnd1 hnd2
  constructor
  · intro happ
    have hb : evalAnswer q (some (UserAnswer.multi ans)) = true := by
      have := List.append_cancel_left happ
      simpa using this
    exact hchain.mp hb
  · intro hset
    rw [hchain.mpr hset]

theorem checkAnswer_multi_order_insensitive_witness :
    (stC7.questions.get? stC7.currentIndex = some qC7 ∧
      qC7.isMultipleChoice = true ∧
      lookupAssoc stC7.userAnswers qC7.id = some (UserAnswer.multi ["C", "A"]) ∧
      (["C", "A"] : List String).Nodup ∧ qC7.correctAnswers.Nodup) ∧
    ((checkAnswer 0 stC7).map fun st => st.quizResults) = some [true] ∧
    (∃ st', checkAnswer 0 stC7 = some st' ∧
      (st'.quizResults = stC7.quizResults ++ [true] ↔
        ∀ x, x ∈ (["C", "A"] : List String) ↔ x ∈ qC7.correctAnswers)) :=
  ⟨⟨by decide, by decide, by decide, by decide, by decide⟩, by decide,
    checkAnswer_multi_order_insensitive 0 stC7 qC7 ["C", "A"]
      (by decide) (by decide) (by decide) (by decide) (by decide)⟩

/-- C9 fails on the code: `checkAnswer` calls `question.correctAnswers.sort()`,
and JavaScript `Array.prototype.sort` sorts in place, so for a
multiple-choice question whose `correctAnswers` is stored as `["C", "A"]`
the question record's `correctAnswers` field is reordered to `["A", "C"]`
by the answer check.  This evaluates the embedded `checkAnswer` on such a
state and exhibits the changed field. -/
theorem checkAnswer_mutates_correctAnswers :
    ((checkAnswer 0 stC9).map fun st => st.questions.map Question.correctAnswers)
        = some [["A", "C"]] ∧
    stC9.questions.map Question.correctAnswers = [["C", "A"]] ∧
    (["A", "C"] : List String) ≠ ["C", "A"] := by
  refine ⟨by decide, by decide, by decide⟩

/-- C10: `checkAnswer` is total when no answer has been recorded for the
current question (or, for multiple-choice, the stored set is empty): given
a non-empty `correctAnswers`, the result is evaluated as incorrect, the
score is unchanged, and `false` is appended to the results sequence. -/
theorem checkAnswer_total_no_answer (now : ℕ) (st : QuizState) (q : Question)
    (hq : st.questions.get? st.currentIndex = some q)
    (hua : lookupAssoc st.userAnswers q.id = none ∨
      lookupAssoc st.userAnswers q.id = some (UserAnswer.multi []))
    (hne : q.correctAnswers ≠ []) :
    ∃ st', checkAnswer now st = some st' ∧
      st'.score = st.score ∧
      st'.quizResults = st.quizResults ++ [false] := by
  obtain ⟨st', h1, h2, h3, -⟩ := checkAnswer_spec now st q hq
  obtain ⟨c, cs, hc⟩ := List.exists_cons_of_ne_nil hne
  have hfalse : evalAnswer q (lookupAssoc st.userAnswers q.id) = false := by
    have hmal : multiAnswerList (lookupAssoc st.userAnswers q.id) = [] := by
      rcases hua with h | h <;> rw [h] <;> rfl
    cases hmc : q.isMultipleChoice with
    | true =>
      rw [evalAnswer, if_pos hmc, hmal]
      cases hsc : sortJS q.correctAnswers with
      | nil =>
        have : q.correctAnswers.length = 0 := by
          rw [← (sortJS_perm q.correctAnswers).length_eq, hsc]
          rfl
        rw [hc] at this
        simp at this
      | cons a l => rfl
    | false =>
      rw [evalAnswer, if_neg (by simp [hmc]), hc]
      rcases hua with h | h <;> rw [h] <;> rfl
  rw [hfalse] at h2 h3
  exact ⟨st', h1, by rw [h3]; rfl, h2⟩

theorem checkAnswer_total_no_answer_witness :
    (stC10.questions.get? stC10.currentIndex = some qC10 ∧
      lookupAssoc stC10.userAnswers qC10.id = none ∧
      qC10.correctAnswers ≠ []) ∧
    (∃ st', checkAnswer 0 stC10 = some st' ∧
      st'.score = stC10.score ∧
      st'.quizResults = stC10.quizResults ++ [false]) :=
  ⟨⟨by decide, by decide, by decide⟩,
    checkAnswer_total_no_answer 0 stC10 qC10 (by decide) (Or.inl (by decide))
      (by decide)⟩

/-! ## `calculateScaledScore` -/

theorem round_le_round (x y : ℚ) (h : x ≤ y) : round x ≤ round y := by
  rw [round_eq, round_eq]
  exact Int.floor_mono (by linarith)

theorem calculateScaledScore_zero : calculateScaledScore 0 = 0 := by
  simp [calculateScaledScore]

theorem calculateScaledScore_hundred : calculateScaledScore 100 = 1000 := by
  norm_num [calculateScaledScore]

theorem calculateScaledScore_below (r : ℚ) (h0 : 0 < r) (h65 : r < 65) :
    calculateScaledScore r = round (r * 699 / 65) := by
  simp only [calculateScaledScore, passingThreshold]
  rw [if_neg (ne_of_gt h0), if_neg (by intro h; subst h; linarith),
    if_pos (by linarith : r / 100 < 65 / 100)]
  congr 1
  field_simp

theorem calculateScaledScore_above (r : ℚ) (h65 : 65 ≤ r) (h100 : r < 100) :
    calculateScaledScore r = round (700 + (r - 65) * 300 / 35) := by
  simp only [calculateScaledScore, passingThreshold]
  rw [if_neg (by intro h; subst h; linarith), if_neg (ne_of_lt h100),
    if_neg (by intro h; linarith : ¬ r / 100 < 65 / 100)]
  congr 1
  field_simp
  ring

theorem calculateScaledScore_at_65 : calculateScaledScore 65 = 700 := by
  rw [calculateScaledScore_above 65 le_rfl (by norm_num)]
  have h : (700 : ℚ) + (65 - 65) * 300 / 35 = ((700 : ℤ) : ℚ) := by norm_num
  rw [h, round_intCast]

theorem calculateScaledScore_lt_700 (r : ℚ) (h0 : 0 ≤ r) (h65 : r < 65) :
    calculateScaledScore r < 700 := by
  rcases eq_or_lt_of_le h0 with h | h
  · rw [← h, calculateScaledScore_zero]
    norm_num
  · rw [calculateScaledScore_below r h h65]
    have hx : r * 699 / 65 < 699 := by
      rw [div_lt_iff (by norm_num : (0 : ℚ) < 65)]
      linarith
    rw [round_eq]
    apply Int.floor_lt.mpr
    push_cast
    linarith

theorem calculateScaledScore_ge_700 (r : ℚ) (h65 : 65 ≤ r) (h100 : r ≤ 100) :
    700 ≤ calculateScaledScore r := by
  rcases eq_or_lt_of_le h100 with h | h
  · rw [h, calculateScaledScore_hundred]
    norm_num
  · rw [calculateScaledScore_above r h65 h, round_eq]
    apply Int.le_floor.mpr
    have : (0 : ℚ) ≤ (r - 65) * 300 / 35 := div_nonneg (by linarith) (by norm_num)
    push_cast
    linarith

theorem calculateScaledScore_nonneg (r : ℚ) (h0 : 0 ≤ r) (h100 : r ≤ 100) :
    0 ≤ calculateScaledScore r := by
  by_cases h65 : r < 65
  · rcases eq_or_lt_of_le h0 with h | h
    · rw [← h, calculateScaledScore_zero]
    · rw [calculateScaledScore_below r h h65, round_eq]
      apply Int.le_floor.mpr
      have : (0 : ℚ) ≤ r * 699 / 65 := div_nonneg (by linarith) (by norm_num)
      push_cast
      linarith
  · have := calculateScaledScore_ge_700 r (not_lt.mp h65) h100
    linarith

theorem calculateScaledScore_le_1000 (r : ℚ) (h0 : 0 ≤ r) (h100 : r ≤ 100) :
    calculateScaledScore r ≤ 1000 := by
  by_cases h65 : r < 65
  · have := calculateScaledScore_lt_700 r h0 h65
    linarith
  · push_neg at h65
    rcases eq_or_lt_of_le h100 with h | h
    · rw [h, calculateScaledScore_hundred]
    · rw [calculateScaledScore_above r h65 h, round_eq]
      have hx : (r - 65) * 300 / 35 ≤ 300 := by
        rw [div_le_iff (by norm_num : (0 : ℚ) < 35)]
        linarith
      have hfl : (⌊(700 : ℚ) + (r - 65) * 300 / 35 + 1 / 2⌋ : ℤ) < 1001 := by
        apply Int.floor_lt.mpr
        push_cast
        linarith
      omega

theorem calculateScaledScore_mono (r s : ℚ) (h0 : 0 ≤ r) (hrs : r ≤ s) (hs : s ≤ 100) :
    calculateScaledScore r ≤ calculateScaledScore s := by
  have hr100 : r ≤ 100 := le_trans hrs hs
  have hs0 : 0 ≤ s := le_trans h0 hrs
  by_cases hr65 : r < 65
  · by_cases hs65 : s < 65
    · rcases eq_or_lt_of_le h0 with h | h
      · rw [← h, calculateScaledScore_zero]
        exact calculateScaledScore_nonneg s hs0 hs
      · have hs0' : 0 < s := lt_of_lt_of_le h hrs
        rw [calculateScaledScore_below r h hr65, calculateScaledScore_below s hs0' hs65]
        apply round_le_round
        linarith
    · push_neg at hs65
      have h1 := calculateScaledScore_lt_700 r h0 hr65
      have h2 := calculateScaledScore_ge_700 s hs65 hs
      omega
  · push_neg at hr65
    have hs65 : 65 ≤ s := le_trans hr65 hrs
    rcases eq_or_lt_of_le hs with h | h
    · rw [h, calculateScaledScore_hundred]
      exact calculateScaledScore_le_1000 r h0 hr100
    · rcases eq_or_lt_of_le hr100 with h' | h'
      · exfalso
        rw [h'] at hrs
        linarith
      · rw [calculateScaledScore_above r hr65 h', calculateScaledScore_above s hs65 h]
        apply round_le_round
        linarith

/-- C1: `calculateScaledScore` maps 0 to 0, 100 to 1000 and 65 to exactly
700, is monotonically non-decreasing on `[0, 100]`, and respects the
passing boundary: below raw 65 the scaled score is below 700, from raw 65
on it is at least 700. -/
theorem calculateScaledScore_spec (r s : ℚ) (h0 : 0 ≤ r) (hrs : r ≤ s) (hs : s ≤ 100) :
    calculateScaledScore 0 = 0 ∧ calculateScaledScore 100 = 1000 ∧
    calculateScaledScore 65 = 700 ∧
    calculateScaledScore r ≤ calculateScaledScore s ∧
    (r < 65 → calculateScaledScore r < 700) ∧
    (65 ≤ r → 700 ≤ calculateScaledScore r) :=
  ⟨calculateScaledScore_zero, calculateScaledScore_hundred, calculateScaledScore_at_65,
    calculateScaledScore_mono r s h0 hrs hs,
    fun h => calculateScaledScore_lt_700 r h0 h,
    fun h => calculateScaledScore_ge_700 r h (le_trans hrs hs)⟩

theorem calculateScaledScore_spec_witness :
    ((0 : ℚ) ≤ 64 ∧ (64 : ℚ) ≤ 65 ∧ (65 : ℚ) ≤ 100) ∧
    (calculateScaledScore 64 ≤ calculateScaledScore 65 ∧
      ((64 : ℚ) < 65 → calculateScaledScore 64 < 700) ∧
      ((65 : ℚ) ≤ 64 → 700 ≤ calculateScaledScore 64)) :=
  ⟨⟨by norm_num, by norm_num, by norm_num⟩,
    (calculateScaledScore_spec 64 65 (by norm_num) (by norm_num) (by norm_num)).2.2.2⟩

/-! ## `selectTestQuestions` -/

theorem categoryTarget_env : categoryTarget 50 (45 / 100) (50 / 100) = 24 := by
  norm_num [categoryTarget, round_eq]
  decide

theorem categoryTarget_arch : categoryTarget 50 (35 / 100) (40 / 100) = 19 := by
  norm_num [categoryTarget, round_eq]
  decide

theorem categoryTarget_impl : categoryTarget 50 (15 / 100) (20 / 100) = 9 := by
  norm_num [categoryTarget, round_eq]
  decide

theorem selectForCategory_mem (rs : ℕ → ℕ → ℕ) (k : ℕ) (pool : List Question)
    (t : ℕ) (cat : String) (lo hi : ℚ) (q : Question)
    (hq : q ∈ selectForCategory rs k pool t cat lo hi) : q.category = cat := by
  simp only [selectForCategory] at hq
  have h1 : q ∈ shuffle (rs k) (pool.filter (fun q => q.category == cat)) :=
    List.take_subset _ _ hq
  have h2 : q ∈ pool.filter (fun q => q.category == cat) :=
    (shuffle_perm (rs k) _).subset h1
  have h3 := (List.mem_filter.mp h2).2
  simpa using h3

theorem selectForCategory_length (rs : ℕ → ℕ → ℕ) (k : ℕ) (pool : List Question)
    (t : ℕ) (cat : String) (lo hi : ℚ)
    (h : categoryTarget t lo hi ≤ (pool.filter (fun q => q.category == cat)).length) :
    (selectForCategory rs k pool t cat lo hi).length = categoryTarget t lo hi := by
  simp only [selectForCategory]
  rw [List.length_take, shuffle_length]
  omega

theorem countP_take_add_drop (l : List α) (p : α → Bool) (n : ℕ) :
    l.countP p = (l.take n).countP p + (l.drop n).countP p := by
  conv_lhs => rw [← List.take_append_drop n l]
  rw [List.countP_append]

theorem countP_take_bounds (L : List α) (p : α → Bool) (hL : L.length = 52) (n : ℕ)
    (hc : L.countP p = n) :
    n - 2 ≤ (L.take 50).countP p ∧ (L.take 50).countP p ≤ n := by
  have hsplit := countP_take_add_drop L p 50
  have hcl : (L.drop 50).countP p ≤ (L.drop 50).length := List.countP_le_length _
  rw [List.length_drop, hL] at hcl
  omega

/-- C2 as stated fails on the code: a pool that contains questions in all
three official categories but fewer than 50 in total makes
`selectTestQuestions` return the whole pool (3 questions here), not 50: the
shortfall fill can only draw from the available pool. -/
theorem selectTestQuestions_small_pool :
    (∃ q ∈ poolC2, q.category = catEnvisioning) ∧
    (∃ q ∈ poolC2, q.category = catArchitecture) ∧
    (∃ q ∈ poolC2, q.category = catImplementation) ∧
    (selectTestQuestions (fun _ _ => 0) poolC2 50).length = 3 ∧
    (selectTestQuestions (fun _ _ => 0) poolC2 50).length ≠ 50 := by
  have hs1 : selectForCategory (fun _ _ => 0) 0 poolC2 50
      catEnvisioning (45 / 100) (50 / 100) = [qE] := by
    simp only [selectForCategory]
    rw [show poolC2.filter (fun q => q.category == catEnvisioning) = [qE] from by decide,
      categoryTarget_env]
    decide
  have hs2 : selectForCategory (fun _ _ => 0) 1 poolC2 50
      catArchitecture (35 / 100) (40 / 100) = [qA] := by
    simp only [selectForCategory]
    rw [show poolC2.filter (fun q => q.category == catArchitecture) = [qA] from by decide,
      categoryTarget_arch]
    decide
  have hs3 : selectForCategory (fun _ _ => 0) 2 poolC2 50
      catImplementation (15 / 100) (20 / 100) = [qI] := by
    simp only [selectForCategory]
    rw [show poolC2.filter (fun q => q.category == catImplementation) = [qI] from by decide,
      categoryTarget_impl]
    decide
  refine ⟨by decide, by decide, by decide, ?_, ?_⟩ <;>
    · simp only [selectTestQuestions]
      rw [hs1, hs2, hs3]
      decide

/-- C2, amended: for every pool that contains at least the per-category
target number of questions in each official category — 24, 19 and 9, where
the target is `round(50 × midpoint)` of the category's weight range —
`selectTestQuestions` with `targetTotal = 50` returns exactly 50 questions,
and each official category's count in the result is within 2 of its target
(the final truncation drops the 2 questions exceeding 50 from arbitrary
categories), i.e. the proportions approximate the configured midpoints
(47.5%, 37.5%, 17.5%) within rounding tolerance. -/
theorem selectTestQuestions_fifty (rs : ℕ → ℕ → ℕ) (pool : List Question)
    (h1 : 24 ≤ (pool.filter (fun q => q.category == catEnvisioning)).length)
    (h2 : 19 ≤ (pool.filter (fun q => q.category == catArchitecture)).length)
    (h3 : 9 ≤ (pool.filter (fun q => q.category == catImplementation)).length) :
    (selectTestQuestions rs pool 50).length = 50 ∧
    (22 ≤ (selectTestQuestions rs pool 50).countP (fun q => q.category == catEnvisioning) ∧
      (selectTestQuestions rs pool 50).countP (fun q => q.category == catEnvisioning) ≤ 24) ∧
    (17 ≤ (selectTestQuestions rs pool 50).countP (fun q => q.category == catArchitecture) ∧
      (selectTestQuestions rs pool 50).countP (fun q => q.category == catArchitecture) ≤ 19) ∧
    (7 ≤ (selectTestQuestions rs pool 50).countP (fun q => q.category == catImplementation) ∧
      (selectTestQuestions rs pool 50).countP (fun q => q.category == catImplementation) ≤ 9) := by
  have l1 : (selectForCategory rs 0 pool 50 catEnvisioning (45 / 100) (50 / 100)).length
      = 24 := by
    rw [selectForCategory_length rs 0 pool 50 catEnvisioning _ _
      (by rw [categoryTarget_env]; exact h1), categoryTarget_env]
  have l2 : (selectForCategory rs 1 pool 50 catArchitecture (35 / 100) (40 / 100)).length
      = 19 := by
    rw [selectForCategory_length rs 1 pool 50 catArchitecture _ _
      (by rw [categoryTarget_arch]; exact h2), categoryTarget_arch]
  have l3 : (selectForCategory rs 2 pool 50 catImplementation (15 / 100) (20 / 100)).length
      = 9 := by
    rw [selectForCategory_length rs 2 pool 50 catImplementation _ _
      (by rw [categoryTarget_impl]; exact h3), categoryTarget_impl]
  have m1 : ∀ q ∈ selectForCategory rs 0 pool 50 catEnvisioning (45 / 100) (50 / 100),
      q.category = catEnvisioning := fun q hq => selectForCategory_mem rs 0 pool 50 _ _ _ q hq
  have m2 : ∀ q ∈ selectForCategory rs 1 pool 50 catArchitecture (35 / 100) (40 / 100),
      q.category = catArchitecture := fun q hq => selectForCategory_mem rs 1 pool 50 _ _ _ q hq
  have m3 : ∀ q ∈ selectForCategory rs 2 pool 50 catImplementation (15 / 100) (20 / 100),
      q.category = catImplementation := fun q hq => selectForCategory_mem rs 2 pool 50 _ _ _ q hq
  have hno : ¬((selectForCategory rs 0 pool 50 catEnvisioning (45 / 100) (50 / 100) ++
      selectForCategory rs 1 pool 50 catArchitecture (35 / 100) (40 / 100) ++
      selectForCategory rs 2 pool 50 catImplementation (15 / 100) (20 / 100)).length < 50) := by
    rw [List.length_append, List.length_append, l1, l2, l3]
    omega
  have hsel : selectTestQuestions rs pool 50 =
      (shuffle (rs 4)
        (selectForCategory rs 0 pool 50 catEnvisioning (45 / 100) (50 / 100) ++
         selectForCategory rs 1 pool 50 catArchitecture (35 / 100) (40 / 100) ++
         selectForCategory rs 2 pool 50 catImplementation (15 / 100) (20 / 100))).take 50 := by
    simp only [selectTestQuestions]
    rw [if_neg hno]
  have hselLen : (selectForCategory rs 0 pool 50 catEnvisioning (45 / 100) (50 / 100) ++
      selectForCategory rs 1 pool 50 catArchitecture (35 / 100) (40 / 100) ++
      selectForCategory rs 2 pool 50 catImplementation (15 / 100) (20 / 100)).length = 52 := by
    rw [List.length_append, List.length_append, l1, l2, l3]
  have hshufLen : (shuffle (rs 4)
      (selectForCategory rs 0 pool 50 catEnvisioning (45 / 100) (50 / 100) ++
       selectForCategory rs 1 pool 50 catArchitecture (35 / 100) (40 / 100) ++
       selectForCategory rs 2 pool 50 catImplementation (15 / 100) (20 / 100))).length = 52 := by
    rw [shuffle_length, hselLen]
  have hlen : (selectTestQuestions rs pool 50).length = 50 := by
    rw [hsel, List.length_take, hshufLen]
    omega
  have key : ∀ (c : String) (n : ℕ),
      ((selectForCategory rs 0 pool 50 catEnvisioning (45 / 100) (50 / 100) ++
        selectForCategory rs 1 pool 50 catArchitecture (35 / 100) (40 / 100) ++
        selectForCategory rs 2 pool 50 catImplementation (15 / 100) (20 / 100)).countP
          (fun q => q.category == c) = n) →
      n - 2 ≤ (selectTestQuestions rs pool 50).countP (fun q => q.category == c) ∧
        (selectTestQuestions rs pool 50).countP (fun q => q.category == c) ≤ n := by
    intro c n hc
    rw [hsel]
    refine countP_take_bounds _ _ hshufLen n ?_
    rw [(shuffle_perm (rs 4) _).countP_eq]
    exact hc
  have ce1 : (selectForCategory rs 0 pool 50 catEnvisioning (45 / 100) (50 / 100)).countP
      (fun q => q.category == catEnvisioning) = 24 := by
    rw [List.countP_eq_length.mpr, l1]
    intro q hq
    simp [m1 q hq]
  have ce2 : (selectForCategory rs 1 pool 50 catArchitecture (35 / 100) (40 / 100)).countP
      (fun q => q.category == catEnvisioning) = 0 := by
    rw [List.countP_eq_zero.mpr]
    intro q hq
    simp only [m2 q hq]
    decide
  have ce3 : (selectForCategory rs 2 pool 50 catImplementation (15 / 100) (20 / 100)).countP
      (fun q => q.category == catEnvisioning) = 0 := by
    rw [List.countP_eq_zero.mpr]
    intro q hq
    simp only [m3 q hq]
    decide
  have ca1 : (selectForCategory rs 0 pool 50 catEnvisioning (45 / 100) (50 / 100)).countP
      (fun q => q.category == catArchitecture) = 0 := by
    rw [List.countP_eq_zero.mpr]
    intro q hq
    simp only [m1 q hq]
    decide
  have ca2 : (selectForCategory rs 1 pool 50 catArchitecture (35 / 100) (40 / 100)).countP
      (fun q => q.category == catArchitecture) = 19 := by
    rw [List.countP_eq_length.mpr, l2]
    intro q hq
    simp [m2 q hq]
  have ca3 : (selectForCategory rs 2 pool 50 catImplementation (15 / 100) (20 / 100)).countP
      (fun q => q.category == catArchitecture) = 0 := by
    rw [List.countP_eq_zero.mpr]
    intro q hq
    simp only [m3 q hq]
    decide
  have ci1 : (selectForCategory rs 0 pool 50 catEnvisioning (45 / 100) (50 / 100)).countP
      (fun q => q.category == catImplementation) = 0 := by
    rw [List.countP_eq_zero.mpr]
    intro q hq
    simp only [m1 q hq]
    decide
  have ci2 : (selectForCategory rs 1 pool 50 catArchitecture (35 / 100) (40 / 100)).countP
      (fun q => q.category == catImplementation) = 0 := by
    rw [List.countP_eq_zero.mpr]
    intro q hq
    simp only [m2 q hq]
    decide
  have ci3 : (selectForCategory rs 2 pool 50 catImplementation (15 / 100) (20 / 100)).countP
      (fun q => q.category == catImplementation) = 9 := by
    rw [List.countP_eq_length.mpr, l3]
    intro q hq
    simp [m3 q hq]
  have hkeyE := key catEnvisioning 24
    (by rw [List.countP_append, List.countP_append, ce1, ce2, ce3])
  have hkeyA := key catArchitecture 19
    (by rw [List.countP_append, List.countP_append, ca1, ca2, ca3])
  have hkeyI := key catImplementation 9
    (by rw [List.countP_append, List.countP_append, ci1, ci2, ci3])
  refine ⟨hlen, ⟨?_, hkeyE.2⟩, ⟨?_, hkeyA.2⟩, ⟨?_, hkeyI.2⟩⟩
  · have := hkeyE.1
    omega
  · have := hkeyA.1
    omega
  · have := hkeyI.1
    omega

theorem selectTestQuestions_fifty_witness :
    (24 ≤ (pool52.filter (fun q => q.category == catEnvisioning)).length ∧
      19 ≤ (pool52.filter (fun q => q.category == catArchitecture)).length ∧
      9 ≤ (pool52.filter (fun q => q.category == catImplementation)).length) ∧
    ((selectTestQuestions (fun _ _ => 0) pool52 50).length = 50 ∧
      (22 ≤ (selectTestQuestions (fun _ _ => 0) pool52 50).countP
          (fun q => q.category == catEnvisioning) ∧
        (selectTestQuestions (fun _ _ => 0) pool52 50).countP
          (fun q => q.category == catEnvisioning) ≤ 24) ∧
      (17 ≤ (selectTestQuestions (fun _ _ => 0) pool52 50).countP
          (fun q => q.category == catArchitecture) ∧
        (selectTestQuestions (fun _ _ => 0) pool52 50).countP
          (fun q => q.category == catArchitecture) ≤ 19) ∧
      (7 ≤ (selectTestQuestions (fun _ _ => 0) pool52 50).countP
          (fun q => q.category == catImplementation) ∧
        (selectTestQuestions (fun _ _ => 0) pool52 50).countP
          (fun q => q.category == catImplementation) ≤ 9)) :=
  ⟨⟨by decide, by decide, by decide⟩,
    selectTestQuestions_fifty (fun _ _ => 0) pool52 (by decide) (by decide) (by decide)⟩

end PL600
